import Mathlib

/-!
Shallow embedding of the attendance-update script (`update_roster.py`).

The script reconciles a ZOOM session export against a Sabacloud roster:
it derives a canonical full name per roster row, fuzzy-matches each ZOOM
display name against the roster names with rapidfuzz's
`process.extractOne(..., scorer=fuzz.token_sort_ratio)`, accumulates a
name-to-duration dictionary (last write wins), collects unmatched ZOOM
names, and classifies every roster row as Successful / Unsuccessful /
No Show by comparing the accumulated duration with a threshold.

Modelling conventions:
* Python floats are modelled as `ℚ` (the durations and scores the script
  manipulates are exact decimal/rational values; NaN is outside the model).
* rapidfuzz (version 3.x, the unpinned dependency of the script):
  `fuzz.token_sort_ratio` splits on whitespace, sorts the tokens by code
  point (no case folding: the default `processor` of both `fuzz` scorers
  and `process.extractOne` is `None`), rejoins with single spaces and
  returns the normalized InDel similarity
  `200 * lcs / (len a + len b)` (100 when both strings are empty).
  `process.extractOne` returns the first candidate attaining the maximum
  score, and returns `None` (not a tuple) for an empty candidate list,
  which makes the script's tuple unpacking raise a `TypeError`.
* pandas reads a blank CSV cell as float NaN. A blank duration cell
  therefore reaches `float(...)` as NaN and converts to NaN
  (`PyFloat.nan`), whose `>=` and `<` comparisons are both false, so a
  matched record with NaN duration falls through both branches of the
  loop: it is appended to the unmatched list and the dictionary is not
  written. An absent duration *column* makes `row.get` default to 0, and
  a non-numeric duration string makes `float` raise `ValueError`.
* A roster row with an absent name cell does not raise: object-dtype
  concatenation propagates NaN, so the row silently gets a NaN canonical
  name, modelled as `none`, and stays in the roster. (Only an entirely
  absent name column would raise a `KeyError`; the per-row behavior is
  the silent NaN.)
* Exceptions the script can raise are reified in `PRes`.
* Python dictionaries are association lists with insertion order and
  overwriting update; Python truthiness of the matched value (`None` and
  the empty string are falsy) is `pyTruthy`.
-/

set_option autoImplicit false

namespace AttendanceUpdate

/-- Errors the script can raise while the modelled core runs. -/
inductive PyError where
  | typeError
  | valueError
  deriving DecidableEq

/-- Result of a Python computation: a value or a raised exception. -/
inductive PRes (α : Type) where
  | ok : α → PRes α
  | err : PyError → PRes α
  deriving DecidableEq

/-- A Python float as the script observes it: NaN (what pandas puts in a
blank cell) or a real value, modelled exactly in `ℚ`. -/
inductive PyFloat where
  | nan
  | num : ℚ → PyFloat
  deriving DecidableEq

/-- Python `x >= t` on a float duration: false when `x` is NaN (IEEE
comparison), the exact comparison otherwise. -/
def pyGe : PyFloat → ℚ → Bool
  | PyFloat.nan, _ => false
  | PyFloat.num q, t => decide (t ≤ q)

/-- Python `x < t` on a float duration: false when `x` is NaN (IEEE
comparison), the exact comparison otherwise. -/
def pyLt : PyFloat → ℚ → Bool
  | PyFloat.nan, _ => false
  | PyFloat.num q, t => decide (q < t)

/-- The rational value of a real (non-NaN) Python float. Both places that
use it sit in branches whose guard has already excluded NaN, so it is
exactly the value the script manipulates. -/
def PyFloat.toRat : PyFloat → ℚ
  | PyFloat.nan => 0
  | PyFloat.num q => q

/-- The duration cell of a ZOOM row: absent column (`row.get` defaults to
0), a parsed number, a blank cell (pandas reads float NaN), or an
unparseable string (which `float` rejects). -/
inductive Dur where
  | missingColumn
  | num : ℚ → Dur
  | nanCell
  | unparseable : String → Dur
  deriving DecidableEq

/-- One ZOOM session row: display name and duration cell. -/
structure ZoomRecord where
  name : String
  duration : Dur
  deriving DecidableEq

/-- One roster row: the two name cells (absent cells are `none`). -/
structure RosterRow where
  firstName : Option String
  lastName : Option String
  deriving DecidableEq

/-- Module constant `FUZZY_THRESHOLD = 55`. -/
def FUZZY_THRESHOLD : ℚ := 55

/-- Module constant `ATTENDANCE_THRESHOLD = 10`. -/
def ATTENDANCE_THRESHOLD : ℚ := 10

/-- Longest token of non-whitespace characters at the head of the list. -/
def takeTok : List Char → List Char
  | [] => []
  | c :: cs => if c.isWhitespace then [] else c :: takeTok cs

/-- Drop the leading non-whitespace token. -/
def dropTok : List Char → List Char
  | [] => []
  | c :: cs => if c.isWhitespace then c :: cs else dropTok cs

/-- Fuelled worker for Python `str.split()`: split on runs of whitespace,
dropping empty tokens. The fuel only serves structural recursion; it is
never exhausted when it starts at the length of the list. -/
def splitWsF : Nat → List Char → List (List Char)
  | 0, _ => []
  | _ + 1, [] => []
  | fuel + 1, c :: cs =>
    if c.isWhitespace then splitWsF fuel cs
    else (c :: takeTok cs) :: splitWsF fuel (dropTok cs)

/-- Python `str.split()` on a character list. -/
def splitWs (l : List Char) : List (List Char) := splitWsF l.length l

/-- Python `<=` on strings (seen as character lists): lexicographic by
code point. -/
def lexLe : List Char → List Char → Bool
  | [], _ => true
  | _ :: _, [] => false
  | a :: as, b :: bs => if a < b then true else if b < a then false else lexLe as bs

/-- Join tokens with single spaces, as `" ".join(...)` does. -/
def joinSp : List (List Char) → List Char
  | [] => []
  | [t] => t
  | t :: ts => t ++ ' ' :: joinSp ts

/-- The token-sort normal form rapidfuzz builds before scoring: split on
whitespace, sort tokens by code point, rejoin with single spaces. -/
def tokenSortKey (s : String) : List Char :=
  joinSp (List.insertionSort (fun a b => lexLe a b = true) (splitWs s.data))

/-- Fuelled longest-common-subsequence length (fuel at least the sum of
lengths is never exhausted). -/
def lcsF : Nat → List Char → List Char → Nat
  | 0, _, _ => 0
  | _ + 1, [], _ => 0
  | _ + 1, _ :: _, [] => 0
  | fuel + 1, a :: as, b :: bs =>
    if a = b then lcsF fuel as bs + 1
    else max (lcsF fuel (a :: as) bs) (lcsF fuel as (b :: bs))

/-- Longest-common-subsequence length of two character lists. -/
def lcsLen (a b : List Char) : Nat := lcsF (a.length + b.length) a b

/-- rapidfuzz `fuzz.ratio`: normalized InDel similarity in [0, 100].
The InDel distance is `len a + len b - 2 * lcs`, so the similarity is
the exact rational `200 * lcs / (len a + len b)` (written with `mkRat`,
which is division of the numerator by the positive denominator); two
empty strings score 100. -/
def fuzzScore (a b : List Char) : ℚ :=
  if a.length + b.length = 0 then 100
  else mkRat (200 * (lcsLen a b : Int)) (a.length + b.length)

/-- rapidfuzz `fuzz.token_sort_ratio` with its default `processor=None`:
score of the token-sort normal forms, with no case folding. -/
def tokenSortScore (q c : String) : ℚ := fuzzScore (tokenSortKey q) (tokenSortKey c)

/-- Scan of `process.extractOne`: carry the best candidate and its score,
replacing them only on a strictly larger score, so ties keep the first
candidate in the supplied order. -/
def bestAux (q : String) : String → ℚ → List String → String × ℚ
  | b, s, [] => (b, s)
  | b, s, c :: cs =>
    if s < tokenSortScore q c then bestAux q c (tokenSortScore q c) cs
    else bestAux q b s cs

/-- rapidfuzz `process.extractOne(query, choices, scorer=token_sort_ratio)`:
`none` on an empty candidate list, otherwise the first maximal candidate
with its score. -/
def extractOne (q : String) : List String → Option (String × ℚ)
  | [] => none
  | c :: cs => some (bestAux q c (tokenSortScore q c) cs)

/-- `match_student` from the script: unpack the `extractOne` result (a
`TypeError` if it is `None`, i.e. the candidate list was empty) and accept
the match when its score meets or exceeds the threshold. -/
def match_student (zoomName : String) (rosterNames : List String) (threshold : ℚ) :
    PRes (Option String) :=
  match extractOne zoomName rosterNames with
  | none => PRes.err PyError.typeError
  | some (m, score) => PRes.ok (if threshold ≤ score then some m else none)

/-- The `float(row.get('Total duration (minutes)', 0))` conversion: a
missing column defaults to 0, a number passes through, a blank cell is
NaN and `float(nan)` succeeds with NaN, and an unparseable string raises
`ValueError`. -/
def coerceDuration : Dur → PRes PyFloat
  | Dur.missingColumn => PRes.ok (PyFloat.num 0)
  | Dur.num q => PRes.ok (PyFloat.num q)
  | Dur.nanCell => PRes.ok PyFloat.nan
  | Dur.unparseable _ => PRes.err PyError.valueError

/-- Dictionary lookup on the association-list model of a Python dict. -/
def lookupD : List (String × ℚ) → String → Option ℚ
  | [], _ => none
  | p :: ps, n => if p.1 = n then some p.2 else lookupD ps n

/-- Python `d[k] = v`: overwrite in place when the key exists, append
otherwise. -/
def updateDict (d : List (String × ℚ)) (k : String) (v : ℚ) : List (String × ℚ) :=
  if (lookupD d k).isSome then d.map (fun p => if p.1 = k then (k, v) else p)
  else d ++ [(k, v)]

/-- Keys of the dictionary model. -/
def keysD (d : List (String × ℚ)) : List String := d.map Prod.fst

/-- Python truthiness of the `match_student` result: `None` and the empty
string are falsy. -/
def pyTruthy : Option String → Bool
  | none => false
  | some s => decide (s ≠ "")

/-- State built up by the reconciliation loop: the duration dictionary and
the unmatched-name list. -/
abbrev RunState := List (String × ℚ) × List String

/-- One iteration of the loop body of `process_attendance`: convert the
duration (may raise `ValueError`), match the name (may raise `TypeError`
on an empty roster), then either record the duration under the matched
name (both duration branches of the script store identically; they differ
only in what they print) or append the ZOOM name to the unmatched list.
A NaN duration fails both float comparisons, so even a truthily matched
record falls to the unmatched branch and writes nothing. -/
def processRecord (rosterNames : List String) (threshold : ℚ)
    (st : RunState) (r : ZoomRecord) : PRes RunState :=
  match coerceDuration r.duration with
  | PRes.err e => PRes.err e
  | PRes.ok duration =>
    match match_student r.name rosterNames threshold with
    | PRes.err e => PRes.err e
    | PRes.ok matched =>
      if pyTruthy matched = true ∧ pyGe duration ATTENDANCE_THRESHOLD = true then
        PRes.ok (updateDict st.1 (matched.getD ("")) duration.toRat, st.2)
      else if pyTruthy matched = true ∧ pyLt duration ATTENDANCE_THRESHOLD = true then
        PRes.ok (updateDict st.1 (matched.getD ("")) duration.toRat, st.2)
      else PRes.ok (st.1, st.2 ++ [r.name])

/-- Loop step lifted to results: a raised exception aborts the run. -/
def stepE (rosterNames : List String) (threshold : ℚ)
    (acc : PRes RunState) (r : ZoomRecord) : PRes RunState :=
  match acc with
  | PRes.err e => PRes.err e
  | PRes.ok st => processRecord rosterNames threshold st r

/-- `process_attendance` from the script: fold the loop body over the ZOOM
rows in input order, starting from an empty dictionary and unmatched list. -/
def process_attendance (zoomRecords : List ZoomRecord) (rosterNames : List String)
    (threshold : ℚ) : PRes RunState :=
  zoomRecords.foldl (stepE rosterNames threshold) (PRes.ok ([], []))

/-- Case-insensitive sort key used by `sorted(unmatched, key=str.lower)`. -/
def caseKey (s : String) : List Char := s.data.map Char.toLower

/-- Case-insensitive comparison of strings, Python's `str.lower` order. -/
def caseLe (a b : String) : Bool := lexLe (caseKey a) (caseKey b)

/-- The stable case-insensitive sort `sorted(unmatched, key=str.lower)`. -/
def sortCaseInsensitive (l : List String) : List String :=
  List.insertionSort (fun a b => caseLe a b = true) l

/-- `write_unmatched_attendees` from the script, as the list of lines it
writes: a threshold header, a blank line, a section label, then the
unmatched names sorted case-insensitively. -/
def write_unmatched_attendees (unmatched : List String) (threshold : ℚ) : List String :=
  ("Fuzzy Matching Threshold: " ++ toString threshold) :: ("") ::
    ("Unmatched ZOOM Attendees:") :: sortCaseInsensitive unmatched

/-- Final attendance status of a roster row. -/
inductive Status where
  | Successful
  | Unsuccessful
  | NoShow
  deriving DecidableEq

/-- The per-row decision of `update_attendance_status`. -/
def classify (durationByName : List (String × ℚ)) (threshold : ℚ) (name : String) : Status :=
  match lookupD durationByName name with
  | some d => if threshold ≤ d then Status.Successful else Status.Unsuccessful
  | none => Status.NoShow

/-- `update_attendance_status` from the script: set the status cell of
every roster row from its canonical full name. -/
def update_attendance_status (rosterNames : List String)
    (durationByName : List (String × ℚ)) (threshold : ℚ) : List (String × Status) :=
  rosterNames.map (fun n => (n, classify durationByName threshold n))

/-- The per-row normalization of `load_roster_data`:
`df['First Name'] + ' ' + df['Last Name']`. pandas object-dtype
concatenation operates only on the non-null cells and silently propagates
NaN, so a row with an absent name cell gets a NaN canonical name
(modelled `none`) rather than raising. -/
def normalizeRow (r : RosterRow) : Option String :=
  match r.firstName, r.lastName with
  | some f, some l => some (f ++ (" ") ++ l)
  | _, _ => none

/-- `load_roster_data` from the script restricted to the name columns:
derive the canonical full-name cell of every roster row. No row is
dropped and no per-row failure exists: a row with an absent name cell
keeps a NaN (`none`) canonical name. -/
def load_roster_data (rows : List RosterRow) : List (Option String) :=
  rows.map normalizeRow

/-- Modelled from the spec: the canonical name the spec prescribes,
`trim(firstName) + " " + trim(lastName)` (section 3 of the spec); the
trimming of the two cells is what the code under `src/` does not do. -/
def trimWs (l : List Char) : List Char :=
  ((l.dropWhile Char.isWhitespace).reverse.dropWhile Char.isWhitespace).reverse

/-- Modelled from the spec: canonical-name builder with trimmed fields. -/
def canonicalNameSpec (f l : String) : String :=
  String.mk (trimWs f.data) ++ (" ") ++ String.mk (trimWs l.data)

/-- Best token-sort score of a query against a candidate list (0 for the
empty list; every score is nonnegative, so the 0 base is neutral). -/
def bestScoreSpec (q : String) : List String → ℚ
  | [] => 0
  | c :: cs => max (tokenSortScore q c) (bestScoreSpec q cs)

/-- First candidate attaining the best score, in the supplied order. -/
def firstMax (q : String) (cs : List String) : Option String :=
  cs.find? (fun c => decide (tokenSortScore q c = bestScoreSpec q cs))

/-- Whether a ZOOM record is (truthily) matched to the roster name `m`. -/
def matchedTo (rosterNames : List String) (threshold : ℚ) (m : String)
    (r : ZoomRecord) : Bool :=
  match match_student r.name rosterNames threshold with
  | PRes.ok (some s) => decide (s ≠ "") && decide (s = m)
  | _ => false

/-- Whether a ZOOM record actually writes the duration dictionary under
the roster name `m`: it is truthily matched to `m` and its duration
converts to a real (non-NaN) float, so one of the two comparison branches
of the loop fires. -/
def writesTo (rosterNames : List String) (threshold : ℚ) (m : String)
    (r : ZoomRecord) : Bool :=
  matchedTo rosterNames threshold m r &&
    match coerceDuration r.duration with
    | PRes.ok (PyFloat.num _) => true
    | _ => false

/-! Dictionary lemmas. -/

theorem lookupD_map_update (k : String) (v : ℚ) :
    ∀ d : List (String × ℚ), (lookupD d k).isSome = true →
      lookupD (d.map (fun p => if p.1 = k then (k, v) else p)) k = some v
  | [], h => by simp [lookupD] at h
  | p :: ps, h => by
    by_cases hp : p.1 = k
    · simp [lookupD, hp]
    · have h' : (lookupD ps k).isSome = true := by simpa [lookupD, hp] using h
      simpa [lookupD, hp] using lookupD_map_update k v ps h'

theorem lookupD_map_other (k k' : String) (hne : k' ≠ k) (v : ℚ) :
    ∀ d : List (String × ℚ),
      lookupD (d.map (fun p => if p.1 = k then (k, v) else p)) k' = lookupD d k'
  | [] => rfl
  | p :: ps => by
    rw [List.map_cons]
    simp only [lookupD]
    by_cases hp : p.1 = k
    · have hp' : p.1 ≠ k' := by rw [hp]; exact Ne.symm hne
      rw [if_pos hp]
      show (if k = k' then some v else lookupD (ps.map fun p => if p.1 = k then (k, v) else p) k') = _
      rw [if_neg (Ne.symm hne), if_neg hp', lookupD_map_other k k' hne v ps]
    · rw [if_neg hp]
      show (if p.1 = k' then some p.2 else lookupD (ps.map fun p => if p.1 = k then (k, v) else p) k') = _
      rw [lookupD_map_other k k' hne v ps]

theorem lookupD_append_some (k' : String) (w : ℚ) :
    ∀ (d e : List (String × ℚ)), lookupD d k' = some w → lookupD (d ++ e) k' = some w
  | [], _, h => by simp [lookupD] at h
  | p :: ps, e, h => by
    by_cases hp : p.1 = k'
    · simpa [lookupD, hp] using by simpa [lookupD, hp] using h
    · have h' : lookupD ps k' = some w := by simpa [lookupD, hp] using h
      simpa [lookupD, hp] using lookupD_append_some k' w ps e h'

theorem lookupD_append_none (k' : String) :
    ∀ (d e : List (String × ℚ)), lookupD d k' = none → lookupD (d ++ e) k' = lookupD e k'
  | [], _, _ => rfl
  | p :: ps, e, h => by
    by_cases hp : p.1 = k'
    · simp [lookupD, hp] at h
    · have h' : lookupD ps k' = none := by simpa [lookupD, hp] using h
      simpa [lookupD, hp] using lookupD_append_none k' ps e h'

theorem lookupD_updateDict_self (d : List (String × ℚ)) (k : String) (v : ℚ) :
    lookupD (updateDict d k v) k = some v := by
  unfold updateDict
  by_cases h : (lookupD d k).isSome = true
  · rw [if_pos h]
    exact lookupD_map_update k v d h
  · rw [if_neg h]
    have hnone : lookupD d k = none := by
      cases hd : lookupD d k
      · rfl
      · rw [hd] at h; simp at h
    rw [lookupD_append_none k d [(k, v)] hnone]
    simp [lookupD]

theorem lookupD_updateDict_other (d : List (String × ℚ)) (k k' : String) (hne : k' ≠ k)
    (v : ℚ) : lookupD (updateDict d k v) k' = lookupD d k' := by
  unfold updateDict
  by_cases h : (lookupD d k).isSome = true
  · rw [if_pos h]
    exact lookupD_map_other k k' hne v d
  · rw [if_neg h]
    cases hd : lookupD d k' with
    | none =>
      rw [lookupD_append_none k' d [(k, v)] hd]
      simp [lookupD, Ne.symm hne]
    | some w => exact lookupD_append_some k' w d [(k, v)] hd

theorem keysD_updateDict (d : List (String × ℚ)) (k : String) (v : ℚ) :
    ∀ x ∈ keysD (updateDict d k v), x ∈ keysD d ∨ x = k := by
  intro x hx
  unfold updateDict at hx
  by_cases h : (lookupD d k).isSome = true
  · rw [if_pos h] at hx
    simp only [keysD, List.map_map, List.mem_map, Function.comp] at hx
    obtain ⟨p, hp, hpx⟩ := hx
    by_cases hpk : p.1 = k
    · rw [if_pos hpk] at hpx
      exact Or.inr hpx.symm
    · rw [if_neg hpk] at hpx
      exact Or.inl (by simp only [keysD, List.mem_map]; exact ⟨p, hp, hpx⟩)
  · rw [if_neg h] at hx
    simp only [keysD, List.map_append, List.mem_append, List.map_cons, List.map_nil,
      List.mem_cons] at hx
    rcases hx with hx | hx
    · exact Or.inl hx
    · simp only [List.not_mem_nil, or_false] at hx
      exact Or.inr hx

/-! Order lemmas for the case-insensitive sort. -/

theorem lexLe_total : ∀ a b : List Char, lexLe a b = true ∨ lexLe b a = true
  | [], _ => Or.inl rfl
  | _ :: _, [] => Or.inr rfl
  | a :: as, b :: bs => by
    rcases lt_trichotomy a b with h | h | h
    · left
      simp [lexLe, h]
    · subst h
      rcases lexLe_total as bs with ih | ih
      · left; simp [lexLe, lt_irrefl, ih]
      · right; simp [lexLe, lt_irrefl, ih]
    · right
      simp [lexLe, h]

theorem lexLe_trans : ∀ a b c : List Char,
    lexLe a b = true → lexLe b c = true → lexLe a c = true
  | [], _, _, _, _ => rfl
  | _ :: _, [], _, hab, _ => by simp [lexLe] at hab
  | _ :: _, _ :: _, [], _, hbc => by simp [lexLe] at hbc
  | a :: as, b :: bs, c :: cs, hab, hbc => by
    rcases lt_trichotomy a b with h1 | h1 | h1
    · rcases lt_trichotomy b c with h2 | h2 | h2
      · simp [lexLe, lt_trans h1 h2]
      · subst h2; simp [lexLe, h1]
      · rw [lexLe, if_neg (asymm h2), if_pos h2] at hbc
        exact absurd hbc (by simp)
    · subst h1
      rw [lexLe, if_neg (lt_irrefl a), if_neg (lt_irrefl a)] at hab
      rcases lt_trichotomy a c with h2 | h2 | h2
      · simp [lexLe, h2]
      · subst h2
        rw [lexLe, if_neg (lt_irrefl a), if_neg (lt_irrefl a)] at hbc ⊢
        exact lexLe_trans as bs cs hab hbc
      · rw [lexLe, if_neg (asymm h2), if_pos h2] at hbc
        exact absurd hbc (by simp)
    · rw [lexLe, if_neg (asymm h1), if_pos h1] at hab
      exact absurd hab (by simp)

instance caseLeIsTotal : IsTotal String (fun a b => caseLe a b = true) :=
  ⟨fun a b => lexLe_total (caseKey a) (caseKey b)⟩

instance caseLeIsTrans : IsTrans String (fun a b => caseLe a b = true) :=
  ⟨fun a b c => lexLe_trans (caseKey a) (caseKey b) (caseKey c)⟩

theorem sortCaseInsensitive_perm (l : List String) : (sortCaseInsensitive l).Perm l :=
  List.perm_insertionSort _ l

theorem sortCaseInsensitive_sorted (l : List String) :
    List.Pairwise (fun a b => caseLe a b = true) (sortCaseInsensitive l) :=
  List.sorted_insertionSort _ l

/-! Score lemmas. -/

theorem fuzzScore_nonneg (a b : List Char) : 0 ≤ fuzzScore a b := by
  unfold fuzzScore
  split
  · norm_num
  · exact Rat.mkRat_nonneg (by positivity) _

theorem tokenSortScore_nonneg (q c : String) : 0 ≤ tokenSortScore q c :=
  fuzzScore_nonneg _ _

theorem bestScoreSpec_nonneg (q : String) : ∀ cs : List String, 0 ≤ bestScoreSpec q cs
  | [] => le_refl 0
  | _ :: cs => le_trans (bestScoreSpec_nonneg q cs) (le_max_right _ _)

theorem lcsF_self : ∀ (fuel : Nat) (l : List Char), l.length ≤ fuel → lcsF fuel l l = l.length
  | 0, l, h => by
    have hl : l = [] := List.eq_nil_of_length_eq_zero (Nat.le_zero.mp h)
    subst hl; rfl
  | _ + 1, [], _ => rfl
  | fuel + 1, _c :: cs, h => by
    have ih := lcsF_self fuel cs (Nat.le_of_succ_le_succ (by simpa using h))
    simp [lcsF, ih]

theorem lcsLen_self (l : List Char) : lcsLen l l = l.length :=
  lcsF_self (l.length + l.length) l (Nat.le_add_right _ _)

theorem fuzzScore_self (a : List Char) : fuzzScore a a = 100 := by
  unfold fuzzScore
  rcases Nat.eq_zero_or_pos a.length with h | h
  · rw [if_pos (by omega)]
  · rw [if_neg (by omega), lcsLen_self, Rat.mkRat_eq_div]
    have h0 : ((a.length + a.length : Nat) : ℚ) ≠ 0 := by
      push_cast
      have : (0 : ℚ) < a.length := by exact_mod_cast h
      linarith
    rw [div_eq_iff h0]
    push_cast
    ring

/-! Characterization of `extractOne` as the first maximal candidate. -/

theorem bestAux_fst_mem (q : String) : ∀ (cs : List String) (b : String) (s : ℚ),
    (bestAux q b s cs).1 = b ∨ (bestAux q b s cs).1 ∈ cs
  | [], _, _ => Or.inl rfl
  | c :: cs, b, s => by
    rw [bestAux]
    split
    · rcases bestAux_fst_mem q cs c (tokenSortScore q c) with h | h
      · exact Or.inr (by rw [h]; exact List.mem_cons_self _ _)
      · exact Or.inr (List.mem_cons_of_mem _ h)
    · rcases bestAux_fst_mem q cs b s with h | h
      · exact Or.inl h
      · exact Or.inr (List.mem_cons_of_mem _ h)

theorem extractOne_mem (q : String) :
    ∀ (cs : List String) (p : String × ℚ), extractOne q cs = some p → p.1 ∈ cs
  | [], p, h => by simp [extractOne] at h
  | c :: cs, p, h => by
    rw [extractOne] at h
    have hp := Option.some.inj h
    rcases bestAux_fst_mem q cs c (tokenSortScore q c) with hm | hm
    · rw [← hp]; rw [hm]; exact List.mem_cons_self _ _
    · rw [← hp]; exact List.mem_cons_of_mem _ hm

theorem bestAux_eq (q : String) : ∀ (cs : List String) (b : String),
    firstMax q (b :: cs) = some ((bestAux q b (tokenSortScore q b) cs).1) ∧
    (bestAux q b (tokenSortScore q b) cs).2 = bestScoreSpec q (b :: cs)
  | [], b => by
    have hbs : bestScoreSpec q [b] = tokenSortScore q b := by
      simp [bestScoreSpec, max_eq_left (tokenSortScore_nonneg q b)]
    constructor
    · unfold firstMax
      rw [List.find?_cons_of_pos _ (by simp [hbs]), bestAux]
    · rw [bestAux, hbs]
  | c :: cs, b => by
    rw [bestAux]
    by_cases h : tokenSortScore q b < tokenSortScore q c
    · rw [if_pos h]
      obtain ⟨ih1, ih2⟩ := bestAux_eq q cs c
      have hble : tokenSortScore q b ≤ bestScoreSpec q (c :: cs) :=
        le_trans (le_of_lt h) (le_max_left _ _)
      have hbs : bestScoreSpec q (b :: c :: cs) = bestScoreSpec q (c :: cs) := by
        show max (tokenSortScore q b) (bestScoreSpec q (c :: cs)) = _
        exact max_eq_right hble
      constructor
      · have hblt : tokenSortScore q b < bestScoreSpec q (c :: cs) :=
          lt_of_lt_of_le h (le_max_left _ _)
        simp only [firstMax, hbs]
        rw [List.find?_cons_of_neg _ (by simp [ne_of_lt hblt])]
        exact ih1
      · rw [ih2, hbs]
    · rw [if_neg h]
      have hcb : tokenSortScore q c ≤ tokenSortScore q b := not_lt.mp h
      obtain ⟨ih1, ih2⟩ := bestAux_eq q cs b
      have hbs : bestScoreSpec q (b :: c :: cs) = bestScoreSpec q (b :: cs) := by
        show max (tokenSortScore q b) (max (tokenSortScore q c) (bestScoreSpec q cs)) =
          max (tokenSortScore q b) (bestScoreSpec q cs)
        rw [← max_assoc, max_eq_left hcb]
      constructor
      · simp only [firstMax, hbs]
        by_cases hpb : tokenSortScore q b = bestScoreSpec q (b :: cs)
        · rw [List.find?_cons_of_pos _ (by simp [hpb])]
          simp only [firstMax] at ih1
          rw [List.find?_cons_of_pos _ (by simp [hpb])] at ih1
          exact ih1
        · have hlt : tokenSortScore q b < bestScoreSpec q (b :: cs) :=
            lt_of_le_of_ne (le_max_left _ _) hpb
          have hclt : tokenSortScore q c < bestScoreSpec q (b :: cs) :=
            lt_of_le_of_lt hcb hlt
          rw [List.find?_cons_of_neg _ (by simp [hpb]),
            List.find?_cons_of_neg _ (by simp [ne_of_lt hclt])]
          simp only [firstMax] at ih1
          rw [List.find?_cons_of_neg _ (by simp [hpb])] at ih1
          exact ih1
      · rw [ih2, hbs]

theorem extractOne_eq (q c : String) (cs : List String) :
    ∃ m, firstMax q (c :: cs) = some m ∧
      extractOne q (c :: cs) = some (m, bestScoreSpec q (c :: cs)) := by
  obtain ⟨h1, h2⟩ := bestAux_eq q cs c
  refine ⟨_, h1, ?_⟩
  rw [extractOne, ← h2]

theorem match_student_mem (q : String) (cs : List String) (t : ℚ) (m : String)
    (h : match_student q cs t = PRes.ok (some m)) : m ∈ cs := by
  unfold match_student at h
  cases hcs : extractOne q cs with
  | none => rw [hcs] at h; exact absurd h (by simp)
  | some p =>
    rw [hcs] at h
    have hm : (if t ≤ p.2 then some p.1 else none) = some m := by
      cases p
      exact PRes.ok.inj h
    by_cases ht : t ≤ p.2
    · rw [if_pos ht] at hm
      rw [← Option.some.inj hm]
      exact extractOne_mem q cs p hcs
    · rw [if_neg ht] at hm
      exact absurd hm (by simp)

/-! Lemmas about the reconciliation loop. -/

theorem matchedTo_eq_true (rosterNames : List String) (t : ℚ) (m : String) (r : ZoomRecord) :
    matchedTo rosterNames t m r = true ↔
      match_student r.name rosterNames t = PRes.ok (some m) ∧ m ≠ ("") := by
  unfold matchedTo
  cases h : match_student r.name rosterNames t with
  | err e => simp
  | ok o =>
    cases o with
    | none => simp
    | some s =>
      simp only [Bool.and_eq_true, decide_eq_true_eq, PRes.ok.injEq, Option.some.injEq]
      constructor
      · rintro ⟨h1, rfl⟩
        exact ⟨rfl, h1⟩
      · rintro ⟨rfl, h2⟩
        exact ⟨h2, rfl⟩

theorem writesTo_eq_true (rosterNames : List String) (t : ℚ) (m : String) (r : ZoomRecord) :
    writesTo rosterNames t m r = true ↔
      (match_student r.name rosterNames t = PRes.ok (some m) ∧ m ≠ ("")) ∧
      ∃ q, coerceDuration r.duration = PRes.ok (PyFloat.num q) := by
  unfold writesTo
  rw [Bool.and_eq_true, matchedTo_eq_true]
  apply and_congr_right
  intro _
  cases hd : coerceDuration r.duration with
  | err e => simp
  | ok v =>
    cases v with
    | nan => simp
    | num q => simp

theorem processRecord_matched (rosterNames : List String) (t : ℚ) (st : RunState)
    (r : ZoomRecord) (m : String) (dur : ℚ)
    (hm : match_student r.name rosterNames t = PRes.ok (some m)) (hne : m ≠ (""))
    (hd : coerceDuration r.duration = PRes.ok (PyFloat.num dur)) :
    processRecord rosterNames t st r = PRes.ok (updateDict st.1 m dur, st.2) := by
  have htr : pyTruthy (some m) = true := by simp [pyTruthy, hne]
  simp only [processRecord, hd, hm]
  split_ifs with h1 h2
  · rfl
  · rfl
  · exfalso
    rcases le_or_lt ATTENDANCE_THRESHOLD dur with hge | hlt
    · exact h1 ⟨htr, by simp [pyGe, hge]⟩
    · exact h2 ⟨htr, by simp [pyLt, hlt]⟩

theorem processRecord_nan (rosterNames : List String) (t : ℚ) (st : RunState)
    (r : ZoomRecord) (matched : Option String)
    (hm : match_student r.name rosterNames t = PRes.ok matched)
    (hd : coerceDuration r.duration = PRes.ok PyFloat.nan) :
    processRecord rosterNames t st r = PRes.ok (st.1, st.2 ++ [r.name]) := by
  simp only [processRecord, hd, hm]
  rw [if_neg (fun hc => absurd hc.2 (by simp [pyGe])),
    if_neg (fun hc => absurd hc.2 (by simp [pyLt]))]

theorem processRecord_ok_cases (rosterNames : List String) (t : ℚ) (st : RunState)
    (r : ZoomRecord) (st' : RunState)
    (h : processRecord rosterNames t st r = PRes.ok st') :
    (∃ m q, match_student r.name rosterNames t = PRes.ok (some m) ∧ m ≠ ("") ∧
        coerceDuration r.duration = PRes.ok (PyFloat.num q) ∧
        st' = (updateDict st.1 m q, st.2)) ∨
    (((match_student r.name rosterNames t = PRes.ok none ∨
        match_student r.name rosterNames t = PRes.ok (some (""))) ∨
       coerceDuration r.duration = PRes.ok PyFloat.nan) ∧
      st' = (st.1, st.2 ++ [r.name])) := by
  cases hd : coerceDuration r.duration with
  | err e =>
    have he : processRecord rosterNames t st r = PRes.err e := by
      simp only [processRecord, hd]
    rw [he] at h
    exact absurd h (by simp)
  | ok dval =>
    cases hm : match_student r.name rosterNames t with
    | err e =>
      have he : processRecord rosterNames t st r = PRes.err e := by
        simp only [processRecord, hd, hm]
      rw [he] at h
      exact absurd h (by simp)
    | ok matched =>
      simp only [processRecord, hd, hm] at h
      cases matched with
      | none =>
        have hf : ¬ (pyTruthy none = true ∧ pyGe dval ATTENDANCE_THRESHOLD = true) :=
          fun hc => by simp [pyTruthy] at hc
        have hf2 : ¬ (pyTruthy none = true ∧ pyLt dval ATTENDANCE_THRESHOLD = true) :=
          fun hc => by simp [pyTruthy] at hc
        rw [if_neg hf, if_neg hf2] at h
        exact Or.inr ⟨Or.inl (Or.inl rfl), (PRes.ok.inj h).symm⟩
      | some s =>
        by_cases hs : s = ("")
        · subst hs
          have hf : ¬ (pyTruthy (some ("")) = true ∧ pyGe dval ATTENDANCE_THRESHOLD = true) :=
            fun hc => by simp [pyTruthy] at hc
          have hf2 : ¬ (pyTruthy (some ("")) = true ∧ pyLt dval ATTENDANCE_THRESHOLD = true) :=
            fun hc => by simp [pyTruthy] at hc
          rw [if_neg hf, if_neg hf2] at h
          exact Or.inr ⟨Or.inl (Or.inr rfl), (PRes.ok.inj h).symm⟩
        · have htr : pyTruthy (some s) = true := by simp [pyTruthy, hs]
          cases dval with
          | nan =>
            rw [if_neg (fun hc => absurd hc.2 (by simp [pyGe])),
              if_neg (fun hc => absurd hc.2 (by simp [pyLt]))] at h
            exact Or.inr ⟨Or.inr rfl, (PRes.ok.inj h).symm⟩
          | num q =>
            refine Or.inl ⟨s, q, rfl, hs, rfl, ?_⟩
            rcases le_or_lt ATTENDANCE_THRESHOLD q with hge | hlt
            · rw [if_pos ⟨htr, by simp [pyGe, hge]⟩] at h
              exact (PRes.ok.inj h).symm
            · rw [if_neg (fun hc => absurd hc.2 (by simp [pyGe, not_le.mpr hlt])),
                if_pos ⟨htr, by simp [pyLt, hlt]⟩] at h
              exact (PRes.ok.inj h).symm

theorem foldl_stepE_err (rosterNames : List String) (t : ℚ) (e : PyError) :
    ∀ l : List ZoomRecord, l.foldl (stepE rosterNames t) (PRes.err e) = PRes.err e
  | [] => rfl
  | _ :: l => foldl_stepE_err rosterNames t e l

theorem foldl_lookup_unchanged (rosterNames : List String) (t : ℚ) (m : String) :
    ∀ (l : List ZoomRecord) (st st' : RunState),
      (∀ rec ∈ l, writesTo rosterNames t m rec = false) →
      l.foldl (stepE rosterNames t) (PRes.ok st) = PRes.ok st' →
      lookupD st'.1 m = lookupD st.1 m
  | [], st, st', _, h => by
    rw [List.foldl_nil] at h
    rw [← PRes.ok.inj h]
  | r :: l, st, st', hall, h => by
    rw [List.foldl_cons,
      show stepE rosterNames t (PRes.ok st) r = processRecord rosterNames t st r from rfl] at h
    cases hpr : processRecord rosterNames t st r with
    | err e =>
      rw [hpr, foldl_stepE_err] at h
      exact absurd h (by simp)
    | ok st₁ =>
      rw [hpr] at h
      have ih := foldl_lookup_unchanged rosterNames t m l st₁ st'
        (fun rec hrec => hall rec (List.mem_cons_of_mem _ hrec)) h
      rw [ih]
      rcases processRecord_ok_cases rosterNames t st r st₁ hpr with
        ⟨s, q, hm, hs, hd, hst⟩ | ⟨_, hst⟩
      · have hsm : s ≠ m := by
          intro he
          have hwt : writesTo rosterNames t m r = true :=
            (writesTo_eq_true rosterNames t m r).mpr ⟨⟨he ▸ hm, he ▸ hs⟩, q, hd⟩
          rw [hall r (List.mem_cons_self _ _)] at hwt
          exact absurd hwt (by simp)
        rw [hst]
        exact lookupD_updateDict_other st.1 s m (Ne.symm hsm) q
      · rw [hst]

theorem foldl_unmatched_mem (rosterNames : List String) (t : ℚ) :
    ∀ (l : List ZoomRecord) (st st' : RunState),
      l.foldl (stepE rosterNames t) (PRes.ok st) = PRes.ok st' →
      ∀ s : String, s ∈ st'.2 ↔ s ∈ st.2 ∨ ∃ r ∈ l, r.name = s ∧
        ((match_student s rosterNames t = PRes.ok none ∨
          match_student s rosterNames t = PRes.ok (some (""))) ∨
         coerceDuration r.duration = PRes.ok PyFloat.nan)
  | [], st, st', h => by
    rw [List.foldl_nil] at h
    rw [← PRes.ok.inj h]
    intro s
    simp
  | r :: l, st, st', h => by
    rw [List.foldl_cons,
      show stepE rosterNames t (PRes.ok st) r = processRecord rosterNames t st r from rfl] at h
    cases hpr : processRecord rosterNames t st r with
    | err e =>
      rw [hpr, foldl_stepE_err] at h
      exact absurd h (by simp)
    | ok st₁ =>
      rw [hpr] at h
      have ih := foldl_unmatched_mem rosterNames t l st₁ st' h
      intro s
      rw [ih s]
      rcases processRecord_ok_cases rosterNames t st r st₁ hpr with
        ⟨mm, q, hm, hs, hd, hst⟩ | ⟨hrej, hst⟩
      · rw [hst]
        constructor
        · rintro (h1 | h2)
          · exact Or.inl h1
          · obtain ⟨r', hr', hrn, hrej'⟩ := h2
            exact Or.inr ⟨r', List.mem_cons_of_mem _ hr', hrn, hrej'⟩
        · rintro (h1 | ⟨r', hr', hrn, hrej'⟩)
          · exact Or.inl h1
          · rcases List.mem_cons.mp hr' with he | hmem
            · exfalso
              subst he
              rcases hrej' with (hr0 | hr0) | hr0
              · rw [← hrn, hm] at hr0
                exact absurd (PRes.ok.inj hr0) (by simp)
              · rw [← hrn, hm] at hr0
                exact hs (Option.some.inj (PRes.ok.inj hr0))
              · rw [hd] at hr0
                exact absurd (PRes.ok.inj hr0) (by simp)
            · exact Or.inr ⟨r', hmem, hrn, hrej'⟩
      · rw [hst]
        simp only [List.mem_append, List.mem_singleton]
        constructor
        · rintro ((h1 | h2) | h3)
          · exact Or.inl h1
          · exact Or.inr ⟨r, List.mem_cons_self _ _, h2.symm, by rw [h2]; exact hrej⟩
          · obtain ⟨r', hr', hrn, hrej'⟩ := h3
            exact Or.inr ⟨r', List.mem_cons_of_mem _ hr', hrn, hrej'⟩
        · rintro (h1 | ⟨r', hr', hrn, hrej'⟩)
          · exact Or.inl (Or.inl h1)
          · rcases List.mem_cons.mp hr' with he | hmem
            · subst he
              exact Or.inl (Or.inr hrn.symm)
            · exact Or.inr ⟨r', hmem, hrn, hrej'⟩

theorem foldl_keys_sub (rosterNames : List String) (t : ℚ) :
    ∀ (l : List ZoomRecord) (st st' : RunState),
      l.foldl (stepE rosterNames t) (PRes.ok st) = PRes.ok st' →
      (∀ k ∈ keysD st.1, k ∈ rosterNames) →
      ∀ k ∈ keysD st'.1, k ∈ rosterNames
  | [], st, st', h, hsub => by
    rw [List.foldl_nil] at h
    rw [← PRes.ok.inj h]
    exact hsub
  | r :: l, st, st', h, hsub => by
    rw [List.foldl_cons,
      show stepE rosterNames t (PRes.ok st) r = processRecord rosterNames t st r from rfl] at h
    cases hpr : processRecord rosterNames t st r with
    | err e =>
      rw [hpr, foldl_stepE_err] at h
      exact absurd h (by simp)
    | ok st₁ =>
      rw [hpr] at h
      refine foldl_keys_sub rosterNames t l st₁ st' h ?_
      rcases processRecord_ok_cases rosterNames t st r st₁ hpr with
        ⟨mm, dur, hm, _, _, hst⟩ | ⟨_, hst⟩
      · intro k hk
        rw [hst] at hk
        rcases keysD_updateDict st.1 mm dur k hk with h1 | h1
        · exact hsub k h1
        · subst h1
          exact match_student_mem _ _ _ _ hm
      · intro k hk
        rw [hst] at hk
        exact hsub k hk

theorem rejected_iff (rosterNames : List String) (t : ℚ) (s : String)
    (hne : rosterNames ≠ []) :
    (match_student s rosterNames t = PRes.ok none ∨
      match_student s rosterNames t = PRes.ok (some (""))) ↔
      (bestScoreSpec s rosterNames < t ∨ firstMax s rosterNames = some ("")) := by
  cases rosterNames with
  | nil => exact absurd rfl hne
  | cons c cs =>
    obtain ⟨m, hfm, hex⟩ := extractOne_eq s c cs
    simp only [match_student, hex]
    by_cases ht : t ≤ bestScoreSpec s (c :: cs)
    · rw [if_pos ht]
      constructor
      · rintro (h1 | h1)
        · exact absurd (PRes.ok.inj h1) (by simp)
        · right
          rw [hfm, Option.some.inj (PRes.ok.inj h1)]
      · rintro (h1 | h1)
        · exact absurd h1 (not_lt.mpr ht)
        · right
          rw [hfm] at h1
          rw [Option.some.inj h1]
    · rw [if_neg ht]
      constructor
      · intro _
        exact Or.inl (not_le.mp ht)
      · intro _
        exact Or.inl rfl

/-! Claim theorems. -/

/-- C1: `update_attendance_status` assigns every roster entry exactly one
status — `No Show` when the canonical name is absent from the duration
map, `Successful` when present with duration at least the duration
threshold (inclusive boundary), `Unsuccessful` when present with duration
strictly below it — and no roster entry is skipped or left unclassified:
the output carries one classified entry per roster name, in order. -/
theorem claim1_classification_total (rosterNames : List String)
    (d : List (String × ℚ)) (t : ℚ) :
    (update_attendance_status rosterNames d t).map Prod.fst = rosterNames ∧
    ∀ n ∈ rosterNames,
      (n, classify d t n) ∈ update_attendance_status rosterNames d t ∧
      ((lookupD d n = none ∧ classify d t n = Status.NoShow) ∨
       (∃ q, lookupD d n = some q ∧ t ≤ q ∧ classify d t n = Status.Successful) ∨
       (∃ q, lookupD d n = some q ∧ q < t ∧ classify d t n = Status.Unsuccessful)) := by
  constructor
  · show (List.map (fun n => (n, classify d t n)) rosterNames).map Prod.fst = rosterNames
    rw [List.map_map, show (Prod.fst ∘ fun n : String => (n, classify d t n)) = id from rfl,
      List.map_id]
  · intro n hn
    refine ⟨List.mem_map.mpr ⟨n, hn, rfl⟩, ?_⟩
    unfold classify
    cases hd : lookupD d n with
    | none => exact Or.inl ⟨rfl, rfl⟩
    | some q =>
      rcases le_or_lt t q with hq | hq
      · refine Or.inr (Or.inl ⟨q, rfl, hq, ?_⟩)
        show (if t ≤ q then Status.Successful else Status.Unsuccessful) = Status.Successful
        rw [if_pos hq]
      · refine Or.inr (Or.inr ⟨q, rfl, hq, ?_⟩)
        show (if t ≤ q then Status.Successful else Status.Unsuccessful) = Status.Unsuccessful
        rw [if_neg (not_le.mpr hq)]

/-- Witness for C1 at a concrete roster, duration map and threshold. -/
theorem claim1_classification_total_witness :
    (("Ana Lopez"), classify [(("Ana Lopez"), 15)] 10 ("Ana Lopez")) ∈
      update_attendance_status [("Ana Lopez")] [(("Ana Lopez"), 15)] 10 ∧
    (∃ q, lookupD [(("Ana Lopez"), 15)] ("Ana Lopez") = some q ∧ 10 ≤ q ∧
      classify [(("Ana Lopez"), 15)] 10 ("Ana Lopez") = Status.Successful) := by
  have h := (claim1_classification_total [("Ana Lopez")] [(("Ana Lopez"), 15)] 10).2
    ("Ana Lopez") (List.mem_cons_self _ _)
  refine ⟨h.1, ?_⟩
  rcases h.2 with ⟨hnone, _⟩ | hsucc | ⟨q, hq, hlt, _⟩
  · exact absurd hnone (by decide)
  · exact hsucc
  · exfalso
    rw [show lookupD [(("Ana Lopez"), 15)] ("Ana Lopez") = some 15 from by decide] at hq
    rw [show q = 15 from (Option.some.inj hq).symm] at hlt
    exact absurd hlt (by decide)

/-- C2 counterexample: the record `("ab", blank duration cell)` is matched
to the roster name `"ab"` with best score 100, far above the threshold
55, yet `"ab"` ends up in the unmatched list: the NaN duration fails both
float comparisons, so the matched record falls to the unmatched branch. -/
theorem claim2_unmatched_counterexample :
    process_attendance [⟨("ab"), Dur.nanCell⟩] [("ab")] 55 = PRes.ok ([], [("ab")]) ∧
    bestScoreSpec ("ab") [("ab")] = 100 ∧ ¬ bestScoreSpec ("ab") [("ab")] < 55 :=
  ⟨by decide, by decide, by decide⟩

/-- C2 (amended): for a non-empty roster, a successful run puts a session
display name in the unmatched list exactly when some record with that
display name is turned away: its best match score is strictly below the
match threshold, or the first maximal candidate is the empty string
(which Python truthiness drops), or the record's duration cell is NaN
(a blank cell — both float comparisons fail, so even a matched record is
appended); the written report lists the unmatched names sorted
case-insensitively ascending after its three header lines. -/
theorem claim2_unmatched_complete (zoomRecords : List ZoomRecord)
    (rosterNames : List String) (t : ℚ) (d : List (String × ℚ)) (u : List String)
    (hne : rosterNames ≠ [])
    (hp : process_attendance zoomRecords rosterNames t = PRes.ok (d, u)) :
    (∀ s : String, s ∈ u ↔ ∃ r ∈ zoomRecords, r.name = s ∧
      ((bestScoreSpec s rosterNames < t ∨ firstMax s rosterNames = some ("")) ∨
        coerceDuration r.duration = PRes.ok PyFloat.nan)) ∧
    ((write_unmatched_attendees u t).drop 3).Perm u ∧
    List.Pairwise (fun a b => caseLe a b = true) ((write_unmatched_attendees u t).drop 3) := by
  refine ⟨?_, ?_, ?_⟩
  · intro s
    have hm := foldl_unmatched_mem rosterNames t zoomRecords ([], []) (d, u) hp s
    simp only [List.not_mem_nil, false_or] at hm
    rw [show s ∈ u ↔ s ∈ (d, u).2 from Iff.rfl, hm]
    constructor
    · rintro ⟨r, hr, hrn, hrej⟩
      exact ⟨r, hr, hrn, hrej.imp (rejected_iff rosterNames t s hne).mp id⟩
    · rintro ⟨r, hr, hrn, hrej⟩
      exact ⟨r, hr, hrn, hrej.imp (rejected_iff rosterNames t s hne).mpr id⟩
  · show ((("Fuzzy Matching Threshold: " ++ toString t) :: ("") ::
      ("Unmatched ZOOM Attendees:") :: sortCaseInsensitive u).drop 3).Perm u
    exact sortCaseInsensitive_perm u
  · show List.Pairwise _ ((("Fuzzy Matching Threshold: " ++ toString t) :: ("") ::
      ("Unmatched ZOOM Attendees:") :: sortCaseInsensitive u).drop 3)
    exact sortCaseInsensitive_sorted u

/-- Witness for C2 (amended) at a concrete run with one unmatched record. -/
theorem claim2_unmatched_complete_witness :
    ((write_unmatched_attendees [("zz")] 55).drop 3).Perm [("zz")] ∧
    List.Pairwise (fun a b => caseLe a b = true)
      ((write_unmatched_attendees [("zz")] 55).drop 3) := by
  have h := claim2_unmatched_complete [⟨("zz"), Dur.num 20⟩] [("ab")] 55 [] [("zz")]
    (by decide) (by decide)
  exact ⟨h.2.1, h.2.2⟩

/-- C3 counterexample: both records match the roster name `"ab"`, the
last one has a blank (NaN) duration cell, yet the final duration is the
earlier record's 3 — a matched record with NaN duration never writes the
dictionary (it is diverted to the unmatched list), so last-write-wins
fails as a universal statement. -/
theorem claim3_nan_counterexample :
    process_attendance [⟨("ab"), Dur.num 3⟩, ⟨("ab"), Dur.nanCell⟩] [("ab")] 55 =
      PRes.ok ([(("ab"), 3)], [("ab")]) ∧
    matchedTo [("ab")] 55 ("ab") ⟨("ab"), Dur.nanCell⟩ = true ∧
    coerceDuration Dur.nanCell ≠ PRes.ok (PyFloat.num 3) :=
  ⟨by decide, by decide, by decide⟩

/-- C3 (amended): when several session records match the same roster name,
the final duration recorded for that name is the duration of the last
record in input order that is truthily matched to it AND carries a real
(non-NaN) duration: if the records split as `l₁ ++ r :: l₂` where `r`
writes under `m` and no record of `l₂` does, a successful run maps `m` to
`r`'s converted duration (records matched with a NaN duration never
overwrite; they go to the unmatched list). -/
theorem claim3_last_write_wins (zoomRecords l₁ l₂ : List ZoomRecord) (r : ZoomRecord)
    (rosterNames : List String) (t : ℚ) (d : List (String × ℚ)) (u : List String)
    (m : String)
    (hsplit : zoomRecords = l₁ ++ r :: l₂)
    (hr : writesTo rosterNames t m r = true)
    (hl₂ : ∀ rec ∈ l₂, writesTo rosterNames t m rec = false)
    (hp : process_attendance zoomRecords rosterNames t = PRes.ok (d, u)) :
    ∃ q, coerceDuration r.duration = PRes.ok (PyFloat.num q) ∧ lookupD d m = some q := by
  subst hsplit
  unfold process_attendance at hp
  rw [List.foldl_append, List.foldl_cons] at hp
  cases h₁ : List.foldl (stepE rosterNames t) (PRes.ok ([], [])) l₁ with
  | err e =>
    rw [h₁, show stepE rosterNames t (PRes.err e) r = PRes.err e from rfl,
      foldl_stepE_err] at hp
    exact absurd hp (by simp)
  | ok st₁ =>
    rw [h₁, show stepE rosterNames t (PRes.ok st₁) r = processRecord rosterNames t st₁ r
      from rfl] at hp
    obtain ⟨⟨hm, hmne⟩, q, hd⟩ := (writesTo_eq_true rosterNames t m r).mp hr
    rw [processRecord_matched rosterNames t st₁ r m q hm hmne hd] at hp
    have hu := foldl_lookup_unchanged rosterNames t m l₂ _ _ hl₂ hp
    exact ⟨q, hd, hu.trans (lookupD_updateDict_self st₁.1 m q)⟩

/-- Witness for C3: the spec's own example — records `("Ana Lopez", 3)`
then `("Ana L.", 40)` both match the roster name `"Ana Lopez"` with real
durations, and the final duration is 40. -/
theorem claim3_last_write_wins_witness :
    ∃ q, coerceDuration (Dur.num 40) = PRes.ok (PyFloat.num q) ∧
      lookupD [(("Ana Lopez"), 40)] ("Ana Lopez") = some q :=
  claim3_last_write_wins
    [⟨("Ana Lopez"), Dur.num 3⟩, ⟨("Ana L."), Dur.num 40⟩]
    [⟨("Ana Lopez"), Dur.num 3⟩] [] ⟨("Ana L."), Dur.num 40⟩
    [("Ana Lopez")] 55 [(("Ana Lopez"), 40)] [] ("Ana Lopez")
    rfl (by decide) (fun rec hrec => absurd hrec (List.not_mem_nil rec)) (by decide)

/-- C4 counterexample: a session record whose duration cell is an
unparseable string makes `process_attendance` raise `ValueError` (the
`float` conversion fails); the run does not recover by coercing to 0. -/
theorem claim4_duration_counterexample :
    process_attendance [⟨("Ana Lopez"), Dur.unparseable ("abc")⟩] [("Ana Lopez")] 55 =
      PRes.err PyError.valueError := by decide

/-- C4 (amended): only a record whose duration column is entirely absent
is coerced to duration 0 and still classifies as `Unsuccessful` once
truthily matched (for every positive duration threshold). A blank
duration cell instead becomes NaN: the record is still matched, but the
NaN fails both comparisons, so the record is sent to the unmatched list
and writes nothing. A present but unparseable duration string raises
`ValueError`. -/
theorem claim4_duration_handling (r : ZoomRecord) (rosterNames : List String)
    (t : ℚ) (st : RunState) (m : String)
    (hm : match_student r.name rosterNames t = PRes.ok (some m))
    (hne : m ≠ ("")) :
    (r.duration = Dur.missingColumn →
      coerceDuration r.duration = PRes.ok (PyFloat.num 0) ∧
      processRecord rosterNames t st r = PRes.ok (updateDict st.1 m 0, st.2) ∧
      ∀ dt : ℚ, 0 < dt → classify (updateDict st.1 m 0) dt m = Status.Unsuccessful) ∧
    (r.duration = Dur.nanCell →
      coerceDuration r.duration = PRes.ok PyFloat.nan ∧
      processRecord rosterNames t st r = PRes.ok (st.1, st.2 ++ [r.name])) := by
  constructor
  · intro hmiss
    have hc : coerceDuration r.duration = PRes.ok (PyFloat.num 0) := by rw [hmiss]; rfl
    refine ⟨hc, processRecord_matched rosterNames t st r m 0 hm hne hc, ?_⟩
    intro dt hdt
    simp only [classify, lookupD_updateDict_self]
    rw [if_neg (not_le.mpr hdt)]
  · intro hnan
    have hc : coerceDuration r.duration = PRes.ok PyFloat.nan := by rw [hnan]; rfl
    exact ⟨hc, processRecord_nan rosterNames t st r (some m) hm hc⟩

/-- Witness for C4 (amended): an absent-column record writes duration 0
and classifies Unsuccessful; a blank-cell (NaN) record of the same name is
sent to the unmatched list instead. -/
theorem claim4_duration_handling_witness :
    processRecord [("Ana Lopez")] 55 ([], []) ⟨("Ana Lopez"), Dur.missingColumn⟩ =
      PRes.ok (updateDict [] ("Ana Lopez") 0, []) ∧
    classify (updateDict [] ("Ana Lopez") 0) 10 ("Ana Lopez") = Status.Unsuccessful ∧
    processRecord [("Ana Lopez")] 55 ([], []) ⟨("Ana Lopez"), Dur.nanCell⟩ =
      PRes.ok ([], [("Ana Lopez")]) := by
  have h1 := (claim4_duration_handling ⟨("Ana Lopez"), Dur.missingColumn⟩ [("Ana Lopez")]
    55 ([], []) ("Ana Lopez") (by decide) (by decide)).1 rfl
  have h2 := (claim4_duration_handling ⟨("Ana Lopez"), Dur.nanCell⟩ [("Ana Lopez")]
    55 ([], []) ("Ana Lopez") (by decide) (by decide)).2 rfl
  exact ⟨h1.2.1, h1.2.2 10 (by norm_num), h2.2⟩

/-- C5 counterexample: a roster row with an absent given-name cell does
not fail — normalization returns normally with a NaN (missing) canonical
name for the row, which stays in the roster. -/
theorem claim5_missing_name_counterexample :
    load_roster_data [⟨none, some ("Lopez")⟩] = [none] ∧
    normalizeRow ⟨none, some ("Lopez")⟩ = none :=
  ⟨by decide, by decide⟩

/-- C5 (amended): normalization never fails on a roster row with an
absent given-name or family-name cell: pandas object-dtype concatenation
silently propagates NaN, so the canonical name of such a row is missing
(NaN, modelled `none`) and the row is kept — `load_roster_data` returns
exactly one canonical-name cell per roster row, none skipped. -/
theorem claim5_missing_name_silent (rows : List RosterRow) :
    (load_roster_data rows).length = rows.length ∧
    ∀ r : RosterRow, (r.firstName = none ∨ r.lastName = none) → normalizeRow r = none := by
  constructor
  · simp [load_roster_data]
  · intro r h
    unfold normalizeRow
    rcases h with h | h
    · rw [h]
    · rw [h]
      cases r.firstName <;> rfl

/-- Witness for C5 (amended): the one-row roster with an absent given
name keeps its single row, whose canonical name is silently missing. -/
theorem claim5_missing_name_silent_witness :
    (load_roster_data [⟨none, some ("Lopez")⟩]).length = 1 ∧
    normalizeRow ⟨none, some ("Lopez")⟩ = none := by
  have h := claim5_missing_name_silent [⟨none, some ("Lopez")⟩]
  exact ⟨h.1, h.2 ⟨none, some ("Lopez")⟩ (Or.inl rfl)⟩

/-- C6 counterexample: on an empty candidate list `match_student` raises a
`TypeError` (rapidfuzz `extractOne` returns `None` and the tuple unpacking
fails) instead of returning a no-match result. -/
theorem claim6_empty_roster_counterexample :
    match_student ("Ana") [] 55 = PRes.err PyError.typeError := by decide

/-- C6 (amended): for every query name and every threshold, `match_student`
applied to an empty candidate list raises `TypeError`; it never returns the
no-match result `None`. -/
theorem claim6_empty_roster_raises (q : String) (t : ℚ) :
    match_student q [] t = PRes.err PyError.typeError := rfl

/-- C7 counterexample: the code does not trim the name cells — a leading
space in the given name and a trailing space in the family name survive
into the canonical name, so the derived name differs from the spec's
`trim(firstName) + " " + trim(lastName)`. -/
theorem claim7_no_trim_counterexample :
    normalizeRow ⟨some (" Ana"), some ("Lopez ")⟩ = some (" Ana Lopez ") ∧
    canonicalNameSpec (" Ana") ("Lopez ") = ("Ana Lopez") ∧
    (" Ana Lopez ") ≠ ("Ana Lopez") :=
  ⟨by decide, by decide, by decide⟩

/-- C7 (amended): the canonical name is `firstName + " " + lastName` with
both cells used verbatim — no leading or trailing trimming, and internal
whitespace and letter case untouched. -/
theorem claim7_canonical_name_verbatim (f l : String) :
    normalizeRow ⟨some f, some l⟩ = some (f ++ (" ") ++ l) := rfl

/-- C8 counterexample: the token-sort score is case-sensitive — the query
`"ana lopez"` against the candidate `"Ana Lopez"` scores 700/9 (about
77.8), not (approximately) 100. -/
theorem claim8_case_sensitivity_counterexample :
    tokenSortScore ("ana lopez") ("Ana Lopez") ≠ 100 ∧
    tokenSortScore ("ana lopez") ("Ana Lopez") < 80 :=
  ⟨by decide, by decide⟩

/-- C8 (amended): the token-sort score compares the token-sorted strings
without case folding: two names with the same token-sort normal form
(so, identical tokens up to order and whitespace, case included) score
exactly 100, while `"ana lopez"` against `"Ana Lopez"` scores only 700/9
(still above the default threshold 55). -/
theorem claim8_token_sort_case_sensitive :
    (∀ q c : String, tokenSortKey q = tokenSortKey c → tokenSortScore q c = 100) ∧
    tokenSortScore ("ana lopez") ("Ana Lopez") = mkRat 700 9 := by
  constructor
  · intro q c h
    unfold tokenSortScore
    rw [h]
    exact fuzzScore_self _
  · decide

/-- Witness for C8 (amended): a pure token-order swap with identical case
scores 100. -/
theorem claim8_token_sort_case_sensitive_witness :
    tokenSortKey ("a b") = tokenSortKey ("b a") ∧
    tokenSortScore ("a b") ("b a") = 100 :=
  ⟨by decide, claim8_token_sort_case_sensitive.1 ("a b") ("b a") (by decide)⟩

/-- C9: with a non-empty candidate list on which two or more distinct
candidates attain the maximum score, `match_student` selects the first
candidate attaining the maximum in the supplied order, accepts when the
best score meets the threshold (inclusive of equality) and rejects when it
is strictly below. -/
theorem claim9_first_of_ties (q : String) (cs : List String) (t : ℚ)
    (hne : cs ≠ [])
    (_htie : ∃ c₁ ∈ cs, ∃ c₂ ∈ cs, c₁ ≠ c₂ ∧
      tokenSortScore q c₁ = bestScoreSpec q cs ∧
      tokenSortScore q c₂ = bestScoreSpec q cs) :
    ∃ m, firstMax q cs = some m ∧
      match_student q cs t =
        PRes.ok (if t ≤ bestScoreSpec q cs then some m else none) := by
  cases cs with
  | nil => exact absurd rfl hne
  | cons c cs' =>
    obtain ⟨m, hfm, hex⟩ := extractOne_eq q c cs'
    exact ⟨m, hfm, by simp only [match_student, hex]⟩

/-- Witness for C9: `"b a"` and `"a b"` both score 100 against the query
`"a b"`; the first of the two is returned, at a threshold exactly equal to
the score (inclusive acceptance). -/
theorem claim9_first_of_ties_witness :
    match_student ("a b") [("b a"), ("a b")] 100 = PRes.ok (some ("b a")) := by
  obtain ⟨m, h1, h2⟩ := claim9_first_of_ties ("a b") [("b a"), ("a b")] 100 (by decide)
    ⟨("b a"), by decide, ("a b"), by decide, by decide, by decide, by decide⟩
  rw [show firstMax ("a b") [("b a"), ("a b")] = some ("b a") from by decide] at h1
  rw [h2, if_pos (by decide : (100 : ℚ) ≤ bestScoreSpec ("a b") [("b a"), ("a b")]),
    Option.some.inj h1.symm]

/-- C10: every key of the duration map returned by a successful run of
`process_attendance` is an element of the supplied roster name list:
the matcher only returns members of its candidate list and the map is
written only under truthily matched names. -/
theorem claim10_keys_subset_roster (zoomRecords : List ZoomRecord)
    (rosterNames : List String) (t : ℚ) (d : List (String × ℚ)) (u : List String)
    (hp : process_attendance zoomRecords rosterNames t = PRes.ok (d, u)) :
    ∀ k ∈ keysD d, k ∈ rosterNames :=
  foldl_keys_sub rosterNames t zoomRecords ([], []) (d, u) hp
    (fun k hk => absurd hk (by simp [keysD]))

/-- Witness for C10 at a concrete run with one matched record. -/
theorem claim10_keys_subset_roster_witness : ("ab") ∈ [("ab")] :=
  claim10_keys_subset_roster [⟨("ab"), Dur.num 5⟩] [("ab")] 55 [(("ab"), 5)] []
    (by decide) ("ab") (by decide)

end AttendanceUpdate
